import Mathlib

/-!
Verification of the geocoding-matrix construction and grid resampling logic
of `pygmtsar/SBAS_geocode.py` (class `SBAS_geocode`).

The embedding models:
* the sentinel `noindex` and the affine-rounding forward matrix builder
  `intf_ra2ll_matrix` (source lines 24-42);
* the gather-based resamplers `ra2ll` (lines 94-102) and `ll2ra`
  (lines 252-257), with numpy fancy indexing made explicit (`npTake`);
* the chunkwise nearest-neighbour inverse matrix builder
  `calc_intf_ll2ra_matrix` (lines 148-190) and its chunk-alignment
  assertion in `intf_ll2ra_matrix` (lines 193-203);
* the axis guards of `intf_ra2ll` / `intf_ll2ra` (lines 82-85, 241-244);
* the persistence effects (lines 44-58, 204-217);
* the footprint reduction of `geocode_parallel` (line 15).

Coordinates are modelled as rationals; `uint32` arithmetic is modelled on
`Nat` with an explicit `% 2 ^ 32`; a missing value (numpy `NaN`) is
`Option.none`; a raised Python exception is `Except.error`.
-/

/-- Modelled from the spec: `self.noindex` is defined outside this file
(in the parent `SBAS` class); per the spec it is the single reserved
sentinel, the maximum representable unsigned (32-bit) value. -/
def noindex : ℕ := 2 ^ 32 - 1

/-- Floor of a rational, computed from its reduced numerator and
denominator with flooring integer division. -/
def ratFloor (q : ℚ) : ℤ := Int.fdiv q.num q.den

/-- Rounding as performed by numpy `.round()`: round half to even. -/
def npRound (q : ℚ) : ℤ :=
  let f : ℤ := ratFloor q
  let r : ℚ := q - (f : ℚ)
  if r < 1 / 2 then f
  else if 1 / 2 < r then f + 1
  else if f % 2 = 0 then f else f + 1

/-- One point of the transform dataset `trans_dat`: per-cell azimuth
(`azi`), range (`rng`) and linear index (`idx`). The latitude/longitude
fields play no role in the modelled computations. -/
structure TransPoint where
  azi : ℚ
  rng : ℚ
  idx : ℕ
  deriving DecidableEq, Repr

/-- Row/column index of a coordinate on the interferogram grid, as built
for `trans_yidx` and `trans_xidx` in `intf_ra2ll_matrix` (lines 32-37):
round the affine position and keep it when it is inside `[0, size)`,
otherwise store the sentinel. -/
def trans_idx (coord origin step : ℚ) (size : ℕ) : ℕ :=
  let r : ℤ := npRound ((coord - origin) / step)
  if 0 ≤ r ∧ r < (size : ℤ) then r.toNat else noindex

/-- Value of one cell of the ra2ll matrix (line 40-42): sentinel when
either index is the sentinel, else the flat index `yidx * xsize + xidx`
computed in `uint32` arithmetic. -/
def ra2llCell (azi rng ymin dy xmin dx : ℚ) (ysize xsize : ℕ) : ℕ :=
  let yidx := trans_idx azi ymin dy ysize
  let xidx := trans_idx rng xmin dx xsize
  if yidx = noindex ∨ xidx = noindex then noindex
  else (yidx * xsize + xidx) % 2 ^ 32

/-- The ra2ll transform matrix `matrix_ll` (lines 30-42): one cell per
transform-dataset point, at that point's geographic location. -/
def intf_ra2ll_matrix (points : List TransPoint) (ymin dy xmin dx : ℚ)
    (ysize xsize : ℕ) : List ℕ :=
  points.map (fun p => ra2llCell p.azi p.rng ymin dy xmin dx ysize xsize)

/-- Numpy fancy indexing `grid.reshape(-1)[idxs]` for an unsigned index
array: succeeds with the gathered values when every index is in range,
and raises `IndexError` otherwise. -/
def npTake (grid : List ℚ) (idxs : List ℕ) (dflt : ℚ) : Except String (List ℚ) :=
  if idxs.all (fun i => decide (i < grid.length)) then
    Except.ok (idxs.map (fun i => grid.getD i dflt))
  else Except.error "IndexError"

/-- The per-layer kernel `ra2ll` of `intf_ra2ll` (lines 94-102): replace
sentinel cells by index `0` for the gather (`valid_index`), gather from the
flattened input grid, and emit `none` (numpy `NaN`) at sentinel cells and
the gathered value elsewhere. -/
def ra2ll (matrix : List ℕ) (grid : List ℚ) : Except String (List (Option ℚ)) :=
  let valid_index := matrix.map (fun m => if m ≠ noindex then m else 0)
  match npTake grid valid_index 0 with
  | Except.ok g => Except.ok ((matrix.zip g).map
      (fun mv => if mv.1 ≠ noindex then some mv.2 else none))
  | Except.error e => Except.error e

/-- The per-layer kernel `ll2ra` of `intf_ll2ra` (lines 252-257): gather
`grid.reshape(-1)[matrix_ll2ra]` with no sentinel check. -/
def ll2ra (matrix : List ℕ) (grid : List ℚ) : Except String (List ℚ) :=
  npTake grid matrix 0

/-- One chunk (dask block) of the transform dataset together with its row
of `trans_blocks_extents`: the precomputed azimuth/range bounding box
(`BlockExtentIndex` of the spec, columns 2-5 of the table) and the block's
`(azi, rng, idx)` triples flattened in row order. -/
structure TransBlock where
  aziMin : ℚ
  aziMax : ℚ
  rngMin : ℚ
  rngMax : ℚ
  points : List TransPoint
  deriving DecidableEq, Repr

/-- Minimum azimuth over a chunk of target cells, as `azi.min()` on a
nonempty numpy array (the value for `[]` is arbitrary). -/
def chunkAziMin : List (ℚ × ℚ) → ℚ
  | [] => 0
  | c :: cs => cs.foldl (fun m x => min m x.1) c.1

/-- Maximum azimuth over a chunk of target cells, as `azi.max()`. -/
def chunkAziMax : List (ℚ × ℚ) → ℚ
  | [] => 0
  | c :: cs => cs.foldl (fun m x => max m x.1) c.1

/-- Minimum range over a chunk of target cells, as `rng.min()`. -/
def chunkRngMin : List (ℚ × ℚ) → ℚ
  | [] => 0
  | c :: cs => cs.foldl (fun m x => min m x.2) c.2

/-- Maximum range over a chunk of target cells, as `rng.max()`. -/
def chunkRngMax : List (ℚ × ℚ) → ℚ
  | [] => 0
  | c :: cs => cs.foldl (fun m x => max m x.2) c.2

/-- The combined `ymask & xmask` selection of lines 155-157: the block
extent grown by one unit must meet the chunk bounds `[ymin, ymax]` and
`[xmin, xmax]`. -/
def blockSelected (ymin ymax xmin xmax : ℚ) (b : TransBlock) : Bool :=
  decide (ymin - 1 ≤ b.aziMax) && decide (b.aziMin ≤ ymax + 1) &&
  (decide (xmin - 1 ≤ b.rngMax) && decide (b.rngMin ≤ xmax + 1))

/-- The blocks kept by the extent masks for one chunk of target cells
(line 157, `trans_blocks_extents[ymask & xmask]`). -/
def candidateBlocks (blocks : List TransBlock) (cells : List (ℚ × ℚ)) :
    List TransBlock :=
  blocks.filter (blockSelected (chunkAziMin cells) (chunkAziMax cells)
    (chunkRngMin cells) (chunkRngMax cells))

/-- Concatenation of the selected blocks' flattened triples
(lines 160-179, `blocks_azis` / `blocks_rngs` / `blocks_idxs`). -/
def gatheredPoints (blocks : List TransBlock) (cells : List (ℚ × ℚ)) :
    List TransPoint :=
  (candidateBlocks blocks cells).flatMap TransBlock.points

/-- Squared Euclidean distance in (azimuth, range) space between a query
cell and a transform point; `cKDTree.query` minimises the Euclidean
distance, equivalently its square. -/
def dist2 (q : ℚ × ℚ) (p : TransPoint) : ℚ :=
  (p.azi - q.1) ^ 2 + (p.rng - q.2) ^ 2

/-- First point of `best :: ps` minimising the distance to `q`, the
deterministic counterpart of the `cKDTree.query(..., k=1)` lookup of
lines 183-187. -/
def nearestPoint (q : ℚ × ℚ) (best : TransPoint) : List TransPoint → TransPoint
  | [] => best
  | p :: ps => nearestPoint q (if dist2 q p < dist2 q best then p else best) ps

/-- The per-chunk kernel `calc_intf_ll2ra_matrix` (lines 148-190): when the
extent masks keep no block the chunk is filled with the sentinel
(lines 173-175); otherwise every cell is assigned the `idx` of its nearest
gathered point.  An empty gathered set with a nonempty block selection
would index an empty array out of range, modelled as `IndexError`. -/
def calcIntfLl2raMatrix (blocks : List TransBlock) (cells : List (ℚ × ℚ)) :
    Except String (List ℕ) :=
  if (candidateBlocks blocks cells).isEmpty then
    Except.ok (List.replicate cells.length noindex)
  else
    match gatheredPoints blocks cells with
    | [] => Except.error "IndexError"
    | g :: gs => Except.ok (cells.map (fun q => (nearestPoint q g gs).idx))

/-- Accumulator loop for `rechunkList`. -/
def rechunkGo (c : ℕ) : List α → List α → List (List α)
  | acc, [] => if acc.isEmpty then [] else [acc.reverse]
  | acc, x :: xs =>
    if c ≤ (x :: acc).length then (x :: acc).reverse :: rechunkGo c [] xs
    else rechunkGo c (x :: acc) xs

/-- Repartition of a flattened grid into chunks of size `c` (the last one
possibly shorter), modelling the `.chunk(self.chunksize)` rechunking
applied to the inputs of `apply_ufunc` (line 195). -/
def rechunkList (c : ℕ) (xs : List α) : List (List α) :=
  rechunkGo c [] xs

/-- Chunk partition (dask `.chunks`) of a chunked grid. -/
def chunkPartition (chunks : List (List α)) : List ℕ :=
  chunks.map List.length

/-- Sequencing of a fallible kernel over the chunks of a grid, failing as
soon as one chunk does. -/
def exceptMap (f : α → Except String β) : List α → Except String (List β)
  | [] => Except.ok []
  | x :: xs =>
    match f x, exceptMap f xs with
    | Except.ok y, Except.ok ys => Except.ok (y :: ys)
    | Except.error e, _ => Except.error e
    | Except.ok _, Except.error e => Except.error e

/-- The builder `intf_ll2ra_matrix` (lines 128-203) on a chunked target
grid: the `apply_ufunc` inputs are rechunked to `chunksize` (line 195), the
resulting partition must equal the interferogram grid's partition — the
`assert` of lines 202-203, an `AssertionError` raised before any chunk is
computed — and each chunk is then mapped through the kernel. -/
def intf_ll2ra_matrix (blocks : List TransBlock)
    (intfChunks : List (List (ℚ × ℚ))) (chunksize : ℕ) :
    Except String (List (List ℕ)) :=
  let rechunked := rechunkList chunksize intfChunks.flatten
  if chunkPartition rechunked = chunkPartition intfChunks then
    exceptMap (calcIntfLl2raMatrix blocks) rechunked
  else
    Except.error "AssertionError: Inverse geocoding matrix chunks are not equal to interferogram chunks"

/-- Numpy `astype(bool)` on an optional float: `NaN` (here `none`) is
truthy, a number is truthy exactly when it is nonzero. -/
def astypeBool : Option ℚ → Bool
  | none => true
  | some q => decide (q ≠ 0)

/-- Combining step of a skipping-NaN minimum: a missing value is ignored,
a present value is taken or combined with `min`. -/
def nanminCombine : Option ℚ → Option ℚ → Option ℚ
  | none, m => m
  | some q, none => some q
  | some q, some m => some (min q m)

/-- Skipping-NaN minimum over the `pair` dimension, as the xarray
reduction `.min('pair')` with its default `skipna=True`: `none` when every
layer is missing, else the minimum of the present values. -/
def nanmin : List (Option ℚ) → Option ℚ
  | [] => none
  | v :: vs => nanminCombine v (nanmin vs)

/-- One cell of the footprint grid `intf_grid` built by `geocode_parallel`
(line 15): `.min('pair').astype(bool)` applied to the stack of `phasefilt`
values of the selected pairs at that cell. -/
def footprintCell (vs : List (Option ℚ)) : Bool :=
  astypeBool (nanmin vs)

/-- Modelled from the spec: the boolean reduction the spec describes for
the footprint, a cell being true exactly when at least one pair has data
present (a non-missing value) at that cell.  Stated from the spec's words
to be compared with `footprintCell`, which follows the source. -/
def anyPresent (vs : List (Option ℚ)) : Bool :=
  vs.any Option.isSome

/-- Outcome of entering one of the resampling functions. -/
inductive GuardOutcome where
  | passthrough
  | geocoded
  | nameError (msg : String)
  deriving DecidableEq, Repr

/-- Evaluation of the Python guard condition of `intf_ra2ll` (line 83),
`not y in grids.dims and x in grid.dims`: by operator precedence the left
conjunct is `not (y in grids.dims)`; when it is false, `and`
short-circuits to false, and when it is true the right conjunct is
evaluated — but the name `grid` is unbound (the argument is `grids`), so a
`NameError` is raised. -/
def ra2llGuardCond (gridsDims : List String) : Except String Bool :=
  if "y" ∈ gridsDims then Except.ok false
  else Except.error "NameError: name grid is not defined"

/-- Evaluation of the analogous guard condition of `intf_ll2ra`
(line 242), with the `lat` axis in place of `y`. -/
def ll2raGuardCond (gridsDims : List String) : Except String Bool :=
  if "lat" ∈ gridsDims then Except.ok false
  else Except.error "NameError: name grid is not defined"

/-- Entry behaviour of `intf_ra2ll` (lines 82-85) as a function of the
input's dimension names: the guard body (print a note, return the input
unchanged) runs only when the condition evaluates to true, and an
exception in the condition propagates. -/
def intf_ra2ll_entry (gridsDims : List String) : GuardOutcome :=
  match ra2llGuardCond gridsDims with
  | Except.error e => GuardOutcome.nameError e
  | Except.ok true => GuardOutcome.passthrough
  | Except.ok false => GuardOutcome.geocoded

/-- Entry behaviour of `intf_ll2ra` (lines 241-244). -/
def intf_ll2ra_entry (gridsDims : List String) : GuardOutcome :=
  match ll2raGuardCond gridsDims with
  | Except.error e => GuardOutcome.nameError e
  | Except.ok true => GuardOutcome.passthrough
  | Except.ok false => GuardOutcome.geocoded

/-- A storage side effect of a matrix-builder call. -/
inductive Effect where
  | removeFile (name : String)
  | writeFile (name : String)
  deriving DecidableEq, Repr

/-- What a matrix-builder call returns. -/
inductive BuilderReturn where
  | lazyMatrix
  | writeHandler
  deriving DecidableEq, Repr

/-- Result of a matrix-builder call: its ordered storage side effects and
the kind of value returned. -/
structure BuilderResult where
  effects : List Effect
  ret : BuilderReturn
  deriving DecidableEq, Repr

/-- Persistence behaviour shared by `intf_ra2ll_matrix` (lines 44-58) and
`intf_ll2ra_matrix` (lines 204-217): with `interactive=True` the
un-materialised matrix is returned at once (lines 44-45, 204-205);
otherwise a pre-existing artifact of the same name is deleted
(lines 51-52, 211-212) and the matrix is written (lines 54-57, 213-216). -/
def matrixPersist (filename : String) (interactive fileExists : Bool) :
    BuilderResult :=
  if interactive then ⟨[], BuilderReturn.lazyMatrix⟩
  else
    ⟨(if fileExists then [Effect.removeFile filename] else []) ++
      [Effect.writeFile filename], BuilderReturn.writeHandler⟩

/-- Persistence path of `intf_ra2ll_matrix` (lines 44-58). -/
def intf_ra2ll_persist (interactive fileExists : Bool) : BuilderResult :=
  matrixPersist "intf_ra2ll" interactive fileExists

/-- Persistence path of `intf_ll2ra_matrix` (lines 204-217). -/
def intf_ll2ra_persist (interactive fileExists : Bool) : BuilderResult :=
  matrixPersist "intf_ll2ra" interactive fileExists

example : npRound (7 / 2) = 4 := by with_unfolding_all decide
example : npRound (5 / 2) = 2 := by with_unfolding_all decide
example : npRound (-1 / 2) = 0 := by with_unfolding_all decide
example : npRound (11 / 10) = 1 := by with_unfolding_all decide
example : trans_idx 3 0 1 4 = 3 := by with_unfolding_all decide
example : trans_idx 5 0 1 4 = noindex := by with_unfolding_all decide
example : ra2llCell 3 3 0 1 0 1 4 4 = 15 := by with_unfolding_all decide
example : ll2ra [noindex] [1, 2] = Except.error "IndexError" := by
  with_unfolding_all rfl
example : ra2ll [noindex, 2] [5, 6, 7] =
    Except.ok [none, some 7] := by with_unfolding_all rfl
example : calcIntfLl2raMatrix [] [(0, 0)] =
    Except.ok [noindex] := by with_unfolding_all rfl
example : calcIntfLl2raMatrix
    [⟨0, 4, 0, 4, [⟨0, 0, 7⟩, ⟨1, 1, 9⟩]⟩] [(0, 0), (2, 2)] =
    Except.ok [7, 9] := by with_unfolding_all rfl
example : intf_ll2ra_matrix [⟨0, 4, 0, 4, [⟨0, 0, 7⟩]⟩] [[(0, 0)]] 1 =
    Except.ok [[7]] := by with_unfolding_all rfl
example : intf_ll2ra_matrix [⟨0, 4, 0, 4, [⟨0, 0, 7⟩]⟩] [[(0, 0), (1, 1)]] 1 =
    Except.error "AssertionError: Inverse geocoding matrix chunks are not equal to interferogram chunks" := by
  with_unfolding_all rfl
example : footprintCell [none] = true := by with_unfolding_all rfl
example : anyPresent [none] = false := by with_unfolding_all rfl
example : footprintCell [some 0, some 5] = false := by with_unfolding_all rfl
example : intf_ra2ll_entry ["lat", "lon"] =
    GuardOutcome.nameError "NameError: name grid is not defined" := by rfl
example : intf_ra2ll_entry ["y", "x"] = GuardOutcome.geocoded := by rfl

lemma getD_map_of_lt (f : α → β) (l : List α) (d : β) (e : α) :
    ∀ i, i < l.length → (l.map f).getD i d = f (l.getD i e) := by
  induction l with
  | nil => intro i hi; simp at hi
  | cons a as ih =>
    intro i hi
    cases i with
    | zero => rfl
    | succ j => exact ih j (by simpa using hi)

lemma getD_replicate_of_lt (a : α) (d : α) :
    ∀ n i, i < n → (List.replicate n a).getD i d = a := by
  intro n
  induction n with
  | zero => intro i hi; simp at hi
  | succ m ih =>
    intro i hi
    cases i with
    | zero => rfl
    | succ j => exact ih j (by omega)

lemma getD_mem_of_lt (l : List α) (d : α) :
    ∀ i, i < l.length → l.getD i d ∈ l := by
  induction l with
  | nil => intro i hi; simp at hi
  | cons a as ih =>
    intro i hi
    cases i with
    | zero => exact List.mem_cons_self a as
    | succ j => exact List.mem_cons_of_mem a (ih j (by simpa using hi))

lemma nanmin_eq_none_iff (vs : List (Option ℚ)) :
    nanmin vs = none ↔ ∀ q : ℚ, some q ∉ vs := by
  induction vs with
  | nil => simp [nanmin]
  | cons v tl ih =>
    cases v with
    | none => simpa [nanmin, nanminCombine] using ih
    | some a =>
      constructor
      · intro h
        exfalso
        cases htl : nanmin tl <;> simp [nanmin, nanminCombine, htl] at h
      · intro h
        exact absurd (List.mem_cons_self _ _) (h a)

lemma nanmin_spec (vs : List (Option ℚ)) (m : ℚ) (h : nanmin vs = some m) :
    some m ∈ vs ∧ ∀ q : ℚ, some q ∈ vs → m ≤ q := by
  induction vs generalizing m with
  | nil => simp [nanmin] at h
  | cons v tl ih =>
    cases v with
    | none =>
      have h' : nanmin tl = some m := by simpa [nanmin, nanminCombine] using h
      obtain ⟨hmem, hb⟩ := ih m h'
      refine ⟨List.mem_cons_of_mem _ hmem, ?_⟩
      intro q hq
      rcases List.mem_cons.mp hq with hq | hq
      · exact absurd hq (by simp)
      · exact hb q hq
    | some a =>
      cases htl : nanmin tl with
      | none =>
        have hma : a = m := by simpa [nanmin, nanminCombine, htl] using h
        subst hma
        refine ⟨List.mem_cons_self _ _, ?_⟩
        intro q hq
        rcases List.mem_cons.mp hq with hq | hq
        · simp at hq
          exact hq.ge
        · exact absurd hq ((nanmin_eq_none_iff tl).mp htl q)
      | some b =>
        have hmab : min a b = m := by simpa [nanmin, nanminCombine, htl] using h
        obtain ⟨hmemb, hbb⟩ := ih b htl
        subst hmab
        constructor
        · rcases le_total a b with hab | hab
          · rw [min_eq_left hab]
            exact List.mem_cons_self _ tl
          · exact List.mem_cons_of_mem _ (by simpa [min_eq_right hab] using hmemb)
        · intro q hq
          rcases List.mem_cons.mp hq with hq | hq
          · simp at hq
            subst hq
            exact min_le_left _ _
          · exact le_trans (min_le_right a b) (hbb q hq)

/-- C4: when the extent-mask selection finds no intersecting transform
blocks for a chunk, `calc_intf_ll2ra_matrix` fills the whole chunk with
the sentinel `noindex` and returns normally instead of failing. -/
theorem c4_degenerate_chunk_fill (blocks : List TransBlock)
    (cells : List (ℚ × ℚ)) (h : candidateBlocks blocks cells = []) :
    calcIntfLl2raMatrix blocks cells =
      Except.ok (List.replicate cells.length noindex) := by
  unfold calcIntfLl2raMatrix
  rw [h]
  rfl

/-- Witness for C4 at a concrete input: an empty block-extent table keeps
no candidates, and the one-cell chunk comes back filled with the
sentinel. -/
theorem c4_witness :
    calcIntfLl2raMatrix [] [((0 : ℚ), (0 : ℚ))] = Except.ok [noindex] :=
  c4_degenerate_chunk_fill [] [(0, 0)] rfl

/-- C6: the claim says a grid lacking the expected axes is logged and
passed through unchanged; in the code the guard conditions
`not y in grids.dims and x in grid.dims` (line 83) and
`not lat in grids.dims and lon in grid.dims` (line 242) reference the
unbound name `grid`, so whenever the first axis is missing the call raises
`NameError` instead of passing the input through: the code contradicts the
claimed (and clearly intended) behaviour. -/
theorem c6_axis_guard_name_error :
    intf_ra2ll_entry ["lat", "lon"] =
        GuardOutcome.nameError "NameError: name grid is not defined" ∧
      intf_ll2ra_entry ["y", "x"] =
        GuardOutcome.nameError "NameError: name grid is not defined" :=
  ⟨rfl, rfl⟩

/-- C8: with `interactive=True` both matrix builders perform no storage
side effect and return the un-materialised matrix; deleting a pre-existing
artifact (exactly when one exists) followed by writing happens only on the
non-interactive path, which returns the write handler. -/
theorem c8_interactive_frame :
    ∀ fileExists : Bool,
      (intf_ra2ll_persist true fileExists).effects = [] ∧
      (intf_ra2ll_persist true fileExists).ret = BuilderReturn.lazyMatrix ∧
      (intf_ll2ra_persist true fileExists).effects = [] ∧
      (intf_ll2ra_persist true fileExists).ret = BuilderReturn.lazyMatrix ∧
      (intf_ra2ll_persist false fileExists).effects =
        (if fileExists then [Effect.removeFile "intf_ra2ll"] else []) ++
          [Effect.writeFile "intf_ra2ll"] ∧
      (intf_ra2ll_persist false fileExists).ret = BuilderReturn.writeHandler ∧
      (intf_ll2ra_persist false fileExists).effects =
        (if fileExists then [Effect.removeFile "intf_ll2ra"] else []) ++
          [Effect.writeFile "intf_ll2ra"] ∧
      (intf_ll2ra_persist false fileExists).ret = BuilderReturn.writeHandler := by
  intro fileExists
  cases fileExists <;>
    exact ⟨rfl, rfl, rfl, rfl, rfl, rfl, rfl, rfl⟩

/-- C9 counterexample: at a cell where the single selected pair has no
data (`NaN`), the footprint built by `geocode_parallel` via
`.min('pair').astype(bool)` is `true` (`NaN` is truthy), while the claimed
"at least one pair has data present" reduction is `false`; the claim as
stated is refuted at this concrete input. -/
theorem c9_counterexample :
    footprintCell [none] = true ∧ anyPresent [none] = false :=
  ⟨rfl, rfl⟩

/-- C9 (amended): a footprint cell of `geocode_parallel` is `false`
exactly when some pair holds the value `0` at that cell and no pair holds
a negative value there; in every other case — in particular when no pair
has data at all — the cell is `true`, because the reduction is
`.min('pair')` (skipping `NaN`) followed by `astype(bool)`, under which
`NaN` is truthy. -/
theorem c9_footprint_min_reduction (vs : List (Option ℚ)) :
    footprintCell vs = false ↔
      (some (0 : ℚ) ∈ vs ∧ ∀ q : ℚ, some q ∈ vs → 0 ≤ q) := by
  unfold footprintCell
  cases hm : nanmin vs with
  | none =>
    simp only [astypeBool]
    constructor
    · intro h
      exact absurd h (by simp)
    · intro ⟨h0, _⟩
      exact absurd h0 ((nanmin_eq_none_iff vs).mp hm 0)
  | some a =>
    obtain ⟨hmem, hb⟩ := nanmin_spec vs a hm
    simp only [astypeBool, decide_eq_false_iff_not, not_not]
    constructor
    · intro ha
      subst ha
      exact ⟨hmem, hb⟩
    · intro ⟨h0, hnonneg⟩
      exact le_antisymm (hb 0 h0) (hnonneg a hmem)

/-- C10: if the persisted ll2ra matrix contains the sentinel anywhere (as
a degenerate chunk produces), then for every input grid with fewer than
`noindex + 1` cells the gather `grid.reshape(-1)[matrix_ll2ra]` in
`intf_ll2ra` indexes out of bounds and raises `IndexError` — it never
produces a missing-value marker, so sentinel-freedom is a genuine
precondition of the radar-direction resampler. -/
theorem c10_ll2ra_sentinel_index_error (matrix : List ℕ) (grid : List ℚ)
    (hsent : noindex ∈ matrix) (hsmall : grid.length < noindex + 1) :
    ll2ra matrix grid = Except.error "IndexError" := by
  have hfail : ¬(matrix.all (fun i => decide (i < grid.length)) = true) := by
    intro hall
    rw [List.all_eq_true] at hall
    have := hall noindex hsent
    simp only [decide_eq_true_eq] at this
    omega
  unfold ll2ra npTake
  rw [if_neg hfail]

/-- Witness for C10 at a concrete input: a one-cell matrix holding the
sentinel gathered against a one-cell grid raises. -/
theorem c10_witness : ll2ra [noindex] [(0 : ℚ)] = Except.error "IndexError" :=
  c10_ll2ra_sentinel_index_error [noindex] [0]
    (List.mem_singleton.mpr rfl) (by simp [noindex])

lemma trans_idx_lt_of_ne (coord origin step : ℚ) (size : ℕ)
    (h : trans_idx coord origin step size ≠ noindex) :
    trans_idx coord origin step size < size := by
  by_cases hc : 0 ≤ npRound ((coord - origin) / step) ∧
      npRound ((coord - origin) / step) < (size : ℤ)
  · simp only [trans_idx]
    rw [if_pos hc]
    omega
  · exfalso
    apply h
    simp only [trans_idx]
    rw [if_neg hc]

/-- C2: for every transform point, `intf_ra2ll_matrix` computes the
rounded affine row and column; when both land inside the grid the cell at
the point's geographic location is the flat index `row * width + column`,
and otherwise it is the sentinel `noindex`.  The domain hypotheses say the
radar grid is nonempty and fits in the `uint32` index space, as the
sentinel encoding presumes. -/
theorem c2_ra2ll_affine_rounding (azi rng ymin dy xmin dx : ℚ)
    (ysize xsize : ℕ) (hfit : ysize * xsize ≤ noindex) (hxpos : 0 < xsize) :
    ((0 ≤ npRound ((azi - ymin) / dy) ∧
      npRound ((azi - ymin) / dy) < (ysize : ℤ) ∧
      0 ≤ npRound ((rng - xmin) / dx) ∧
      npRound ((rng - xmin) / dx) < (xsize : ℤ)) →
      ra2llCell azi rng ymin dy xmin dx ysize xsize =
        (npRound ((azi - ymin) / dy)).toNat * xsize +
          (npRound ((rng - xmin) / dx)).toNat) ∧
    (¬(0 ≤ npRound ((azi - ymin) / dy) ∧
       npRound ((azi - ymin) / dy) < (ysize : ℤ) ∧
       0 ≤ npRound ((rng - xmin) / dx) ∧
       npRound ((rng - xmin) / dx) < (xsize : ℤ)) →
      ra2llCell azi rng ymin dy xmin dx ysize xsize = noindex) := by
  constructor
  · rintro ⟨h1, h2, h3, h4⟩
    have hy : trans_idx azi ymin dy ysize =
        (npRound ((azi - ymin) / dy)).toNat := by
      simp only [trans_idx]
      rw [if_pos ⟨h1, h2⟩]
    have hx : trans_idx rng xmin dx xsize =
        (npRound ((rng - xmin) / dx)).toNat := by
      simp only [trans_idx]
      rw [if_pos ⟨h3, h4⟩]
    have hysz : 0 < ysize := by omega
    have hynoidx : (npRound ((azi - ymin) / dy)).toNat ≠ noindex := by
      have hle : ysize ≤ ysize * xsize := Nat.le_mul_of_pos_right ysize hxpos
      omega
    have hxnoidx : (npRound ((rng - xmin) / dx)).toNat ≠ noindex := by
      have hle : xsize ≤ ysize * xsize := Nat.le_mul_of_pos_left xsize hysz
      omega
    simp only [ra2llCell, hy, hx]
    rw [if_neg (by push_neg; exact ⟨hynoidx, hxnoidx⟩)]
    have hbound : (npRound ((azi - ymin) / dy)).toNat * xsize +
        (npRound ((rng - xmin) / dx)).toNat < ysize * xsize := by
      have h5 : ((npRound ((azi - ymin) / dy)).toNat + 1) * xsize ≤
          ysize * xsize := Nat.mul_le_mul_right _ (by omega)
      have h6 : ((npRound ((azi - ymin) / dy)).toNat + 1) * xsize =
          (npRound ((azi - ymin) / dy)).toNat * xsize + xsize := by ring
      omega
    apply Nat.mod_eq_of_lt
    have h232 : (2 : ℕ) ^ 32 = 4294967296 := by norm_num
    have hni : noindex = 4294967295 := by norm_num [noindex]
    omega
  · intro hnot
    simp only [ra2llCell, trans_idx]
    by_cases hy : 0 ≤ npRound ((azi - ymin) / dy) ∧
        npRound ((azi - ymin) / dy) < (ysize : ℤ)
    · have hx : ¬(0 ≤ npRound ((rng - xmin) / dx) ∧
          npRound ((rng - xmin) / dx) < (xsize : ℤ)) := by tauto
      rw [if_neg hx, if_pos (Or.inr rfl)]
    · rw [if_neg hy, if_pos (Or.inl rfl)]

/-- Witness for C2 at a concrete input: the point at azimuth 3, range 2 on
a 4-by-4 unit grid with origin (0, 0) receives flat index
`3 * 4 + 2` through the rounded affine map. -/
theorem c2_witness :
    ra2llCell 3 2 0 1 0 1 4 4 =
      (npRound ((3 - 0) / 1)).toNat * 4 + (npRound ((2 - 0) / 1)).toNat :=
  (c2_ra2ll_affine_rounding 3 2 0 1 0 1 4 4 (by norm_num [noindex])
    (by norm_num)).1 (by with_unfolding_all decide)

/-- C7: every cell of the matrix built by `intf_ra2ll_matrix` is either
the sentinel `noindex` or a valid flat index into the radar grid, an
integer below `ysize * xsize`. -/
theorem c7_ra2ll_values_valid (points : List TransPoint) (ymin dy xmin dx : ℚ)
    (ysize xsize : ℕ) :
    ∀ v ∈ intf_ra2ll_matrix points ymin dy xmin dx ysize xsize,
      v = noindex ∨ v < ysize * xsize := by
  intro v hv
  rw [intf_ra2ll_matrix, List.mem_map] at hv
  obtain ⟨p, hp, rfl⟩ := hv
  by_cases h : trans_idx p.azi ymin dy ysize = noindex ∨
      trans_idx p.rng xmin dx xsize = noindex
  · left
    simp only [ra2llCell]
    rw [if_pos h]
  · right
    push_neg at h
    obtain ⟨hyne, hxne⟩ := h
    have hylt := trans_idx_lt_of_ne p.azi ymin dy ysize hyne
    have hxlt := trans_idx_lt_of_ne p.rng xmin dx xsize hxne
    simp only [ra2llCell]
    rw [if_neg (by push_neg; exact ⟨hyne, hxne⟩)]
    have hmod : (trans_idx p.azi ymin dy ysize * xsize +
        trans_idx p.rng xmin dx xsize) % 2 ^ 32 ≤
        trans_idx p.azi ymin dy ysize * xsize +
          trans_idx p.rng xmin dx xsize := Nat.mod_le _ _
    have h5 : (trans_idx p.azi ymin dy ysize + 1) * xsize ≤ ysize * xsize :=
      Nat.mul_le_mul_right _ (by omega)
    have h6 : (trans_idx p.azi ymin dy ysize + 1) * xsize =
        trans_idx p.azi ymin dy ysize * xsize + xsize := by ring
    omega

/-- Witness for C7 at a concrete input: the cell built from the transform
point at radar coordinates (0, 0) on a 4-by-4 grid is the sentinel or a
valid flat index. -/
theorem c7_witness :
    ra2llCell 0 0 0 1 0 1 4 4 = noindex ∨ ra2llCell 0 0 0 1 0 1 4 4 < 4 * 4 :=
  c7_ra2ll_values_valid [⟨0, 0, 0⟩] 0 1 0 1 4 4
    (ra2llCell 0 0 0 1 0 1 4 4) (List.Mem.head _)

lemma zip_self_map (l : List α) (f : α → β) :
    l.zip (l.map f) = l.map (fun a => (a, f a)) := by
  induction l with
  | nil => rfl
  | cons a as ih => simp [ih]

/-- C3: for every matrix whose non-sentinel cells are valid indices into a
nonempty flattened radar grid, the `ra2ll` kernel succeeds and yields, at
each cell, the missing-value marker (`none`, numpy `NaN`) where the matrix
holds the sentinel and the gathered grid value elsewhere; in particular on
an all-ones grid every non-sentinel cell maps to `1` and every sentinel
cell to the marker. -/
theorem c3_ra2ll_gather (matrix : List ℕ) (grid : List ℚ)
    (hvals : ∀ m ∈ matrix, m = noindex ∨ m < grid.length)
    (hpos : 0 < grid.length) :
    ∃ out, ra2ll matrix grid = Except.ok out ∧ out.length = matrix.length ∧
      (∀ i, i < matrix.length →
        out.getD i none = (if matrix.getD i 0 = noindex then none
          else some (grid.getD (matrix.getD i 0) 0))) ∧
      (grid = List.replicate grid.length 1 → ∀ i, i < matrix.length →
        out.getD i none =
          (if matrix.getD i 0 = noindex then none else some 1)) := by
  refine ⟨matrix.map (fun m => if m = noindex then none
    else some (grid.getD m 0)), ?_, ?_, ?_, ?_⟩
  · have hall : (matrix.map (fun m => if m ≠ noindex then m else 0)).all
        (fun i => decide (i < grid.length)) = true := by
      rw [List.all_eq_true]
      intro i hi
      rw [List.mem_map] at hi
      obtain ⟨m, hm, rfl⟩ := hi
      by_cases hm2 : m = noindex
      · simp [hm2, hpos]
      · rcases hvals m hm with h | h
        · exact absurd h hm2
        · simp [hm2, h]
    simp only [ra2ll, npTake]
    rw [if_pos hall]
    have hfun : ((fun mv : ℕ × ℚ => if mv.1 ≠ noindex then some mv.2 else none) ∘
        fun a => (a, ((fun i => grid.getD i 0) ∘
          fun m => if m ≠ noindex then m else 0) a)) =
        fun m => if m = noindex then none else some (grid.getD m 0) := by
      funext a
      by_cases h : a = noindex
      · simp [h, Function.comp]
      · simp [h, Function.comp]
    dsimp only
    rw [List.map_map, zip_self_map, List.map_map, hfun]
  · simp
  · intro i hi
    rw [getD_map_of_lt _ matrix none 0 i hi]
  · intro hgrid i hi
    rw [getD_map_of_lt _ matrix none 0 i hi]
    by_cases h : matrix.getD i 0 = noindex
    · rw [if_pos h, if_pos h]
    · rcases hvals (matrix.getD i 0) (getD_mem_of_lt matrix 0 i hi) with h' | h'
      · exact absurd h' h
      · rw [if_neg h, if_neg h, hgrid,
          getD_replicate_of_lt 1 0 grid.length (matrix.getD i 0) h']

/-- Witness for C3 at a concrete input: a two-cell matrix holding the
sentinel and the valid index 2 against the three-cell grid [5, 6, 7]. -/
theorem c3_witness :
    ∃ out, ra2ll [noindex, 2] [5, 6, 7] = Except.ok out ∧
      out.length = [noindex, 2].length ∧
      (∀ i, i < [noindex, 2].length →
        out.getD i none = (if [noindex, 2].getD i 0 = noindex then none
          else some ([(5 : ℚ), 6, 7].getD ([noindex, 2].getD i 0) 0))) ∧
      ([(5 : ℚ), 6, 7] = List.replicate [(5 : ℚ), 6, 7].length 1 →
        ∀ i, i < [noindex, 2].length →
          out.getD i none =
            (if [noindex, 2].getD i 0 = noindex then none else some 1)) :=
  c3_ra2ll_gather [noindex, 2] [5, 6, 7]
    (by
      intro m hm
      simp only [List.mem_cons, List.not_mem_nil, or_false] at hm
      rcases hm with rfl | rfl
      · exact Or.inl rfl
      · exact Or.inr (by norm_num))
    (by norm_num)

lemma nearestPoint_mem (q : ℚ × ℚ) (ps : List TransPoint) :
    ∀ best, nearestPoint q best ps ∈ best :: ps := by
  induction ps with
  | nil => intro best; simp [nearestPoint]
  | cons p ps ih =>
    intro best
    simp only [nearestPoint]
    by_cases h : dist2 q p < dist2 q best
    · rw [if_pos h]
      exact List.mem_cons_of_mem best (ih p)
    · rw [if_neg h]
      rcases List.mem_cons.mp (ih best) with h' | h'
      · rw [h']
        exact List.mem_cons_self _ _
      · exact List.mem_cons_of_mem _ (List.mem_cons_of_mem _ h')

lemma nearestPoint_le (q : ℚ × ℚ) (ps : List TransPoint) :
    ∀ best, ∀ r ∈ best :: ps,
      dist2 q (nearestPoint q best ps) ≤ dist2 q r := by
  induction ps with
  | nil =>
    intro best r hr
    rcases List.mem_cons.mp hr with h | h
    · rw [h]
      simp [nearestPoint]
    · exact absurd h (List.not_mem_nil r)
  | cons p ps ih =>
    intro best r hr
    simp only [nearestPoint]
    by_cases h : dist2 q p < dist2 q best
    · rw [if_pos h]
      rcases List.mem_cons.mp hr with h' | h'
      · rw [h']
        exact le_trans (ih p p (List.mem_cons_self _ _)) h.le
      · rcases List.mem_cons.mp h' with h'' | h''
        · rw [h'']
          exact ih p p (List.mem_cons_self _ _)
        · exact ih p r (List.mem_cons_of_mem _ h'')
    · rw [if_neg h]
      rcases List.mem_cons.mp hr with h' | h'
      · rw [h']
        exact ih best best (List.mem_cons_self _ _)
      · rcases List.mem_cons.mp h' with h'' | h''
        · rw [h'']
          exact le_trans (ih best best (List.mem_cons_self _ _)) (not_lt.mp h)
        · exact ih best r (List.mem_cons_of_mem _ h'')

lemma exists_mem_inter_iff (a b c d : ℚ) (hab : a ≤ b) (hcd : c ≤ d) :
    (∃ y, (a ≤ y ∧ y ≤ b) ∧ c ≤ y ∧ y ≤ d) ↔ (a ≤ d ∧ c ≤ b) := by
  constructor
  · rintro ⟨y, ⟨h1, h2⟩, h3, h4⟩
    exact ⟨le_trans h1 h4, le_trans h3 h2⟩
  · rintro ⟨h1, h2⟩
    exact ⟨max a c, ⟨le_max_left _ _, max_le hab h2⟩, le_max_right _ _,
      max_le h1 hcd⟩

lemma foldl_min_le_max (sel : (ℚ × ℚ) → ℚ) (l : List (ℚ × ℚ)) :
    ∀ a b : ℚ, a ≤ b →
      l.foldl (fun m x => min m (sel x)) a ≤
        l.foldl (fun m x => max m (sel x)) b := by
  induction l with
  | nil => intro a b h; exact h
  | cons x xs ih =>
    intro a b h
    exact ih _ _ (le_trans (min_le_left _ _) (le_trans h (le_max_left _ _)))

lemma chunk_bounds (cells : List (ℚ × ℚ)) (h : cells ≠ []) :
    chunkAziMin cells ≤ chunkAziMax cells ∧
      chunkRngMin cells ≤ chunkRngMax cells := by
  cases cells with
  | nil => exact absurd rfl h
  | cons c cs =>
    exact ⟨foldl_min_le_max Prod.fst cs c.1 c.1 le_rfl,
      foldl_min_le_max Prod.snd cs c.2 c.2 le_rfl⟩

lemma gatheredPoints_ne_nil (blocks : List TransBlock) (cells : List (ℚ × ℚ))
    (hcand : candidateBlocks blocks cells ≠ [])
    (hpts : ∀ b ∈ candidateBlocks blocks cells, b.points ≠ []) :
    gatheredPoints blocks cells ≠ [] := by
  obtain ⟨b, hb⟩ := List.exists_mem_of_ne_nil _ hcand
  obtain ⟨p, hp⟩ := List.exists_mem_of_ne_nil _ (hpts b hb)
  intro hempty
  have hmem : p ∈ gatheredPoints blocks cells :=
    List.mem_flatMap.mpr ⟨b, hb, hp⟩
  rw [hempty] at hmem
  exact List.not_mem_nil p hmem

/-- C1: for a nonempty chunk with a nonempty candidate-block selection
(block extents being genuine bounding boxes of nonempty blocks), the
candidate blocks are exactly those of the extent table whose bounding box,
expanded by a margin of one, meets the chunk's azimuth/range bounding box,
and `calc_intf_ll2ra_matrix` assigns to every cell of the chunk the
`idx` of a gathered candidate point whose squared Euclidean distance in
(azimuth, range) space is minimal among all gathered candidate points. -/
theorem c1_ll2ra_nearest_neighbor (blocks : List TransBlock)
    (cells : List (ℚ × ℚ)) (hcells : cells ≠ [])
    (hwf : ∀ b ∈ blocks, b.aziMin ≤ b.aziMax ∧ b.rngMin ≤ b.rngMax)
    (hcand : candidateBlocks blocks cells ≠ [])
    (hpts : ∀ b ∈ candidateBlocks blocks cells, b.points ≠ []) :
    (∀ b ∈ blocks, b ∈ candidateBlocks blocks cells ↔
      ((∃ y, (b.aziMin - 1 ≤ y ∧ y ≤ b.aziMax + 1) ∧
         chunkAziMin cells ≤ y ∧ y ≤ chunkAziMax cells) ∧
       (∃ x, (b.rngMin - 1 ≤ x ∧ x ≤ b.rngMax + 1) ∧
         chunkRngMin cells ≤ x ∧ x ≤ chunkRngMax cells))) ∧
    ∃ out, calcIntfLl2raMatrix blocks cells = Except.ok out ∧
      out.length = cells.length ∧
      ∀ i, i < cells.length → ∃ p ∈ gatheredPoints blocks cells,
        out.getD i 0 = p.idx ∧
        ∀ r ∈ gatheredPoints blocks cells,
          dist2 (cells.getD i (0, 0)) p ≤ dist2 (cells.getD i (0, 0)) r := by
  obtain ⟨hba, hbr⟩ := chunk_bounds cells hcells
  constructor
  · intro b hb
    obtain ⟨hwa, hwr⟩ := hwf b hb
    rw [candidateBlocks, List.mem_filter]
    constructor
    · rintro ⟨-, hsel⟩
      simp only [blockSelected, Bool.and_eq_true, decide_eq_true_eq] at hsel
      obtain ⟨⟨h1, h2⟩, h3, h4⟩ := hsel
      constructor
      · exact (exists_mem_inter_iff _ _ _ _ (by linarith) hba).mpr
          ⟨by linarith, by linarith⟩
      · exact (exists_mem_inter_iff _ _ _ _ (by linarith) hbr).mpr
          ⟨by linarith, by linarith⟩
    · rintro ⟨hy, hx⟩
      refine ⟨hb, ?_⟩
      obtain ⟨hy1, hy2⟩ :=
        (exists_mem_inter_iff _ _ _ _ (by linarith) hba).mp hy
      obtain ⟨hx1, hx2⟩ :=
        (exists_mem_inter_iff _ _ _ _ (by linarith) hbr).mp hx
      simp only [blockSelected, Bool.and_eq_true, decide_eq_true_eq]
      exact ⟨⟨by linarith, by linarith⟩, by linarith, by linarith⟩
  · have hne := gatheredPoints_ne_nil blocks cells hcand hpts
    obtain ⟨g, gs, hg⟩ := List.exists_cons_of_ne_nil hne
    have hcalc : calcIntfLl2raMatrix blocks cells =
        Except.ok (cells.map (fun q => (nearestPoint q g gs).idx)) := by
      unfold calcIntfLl2raMatrix
      rw [hg]
      have hcf : (candidateBlocks blocks cells).isEmpty = false := by
        cases hcl : candidateBlocks blocks cells with
        | nil => exact absurd hcl hcand
        | cons x xs => rfl
      rw [hcf]
      rfl
    refine ⟨cells.map (fun q => (nearestPoint q g gs).idx), hcalc,
      by simp, ?_⟩
    intro i hi
    rw [getD_map_of_lt _ cells 0 (0, 0) i hi]
    refine ⟨nearestPoint (cells.getD i (0, 0)) g gs, ?_, rfl, ?_⟩
    · rw [hg]
      exact nearestPoint_mem _ gs g
    · intro r hr
      rw [hg] at hr
      exact nearestPoint_le _ gs g r hr

/-- Witness for C1 at a concrete input: one transform block holding the
single point (0, 0) with index 7, against the one-cell chunk at (0, 0). -/
theorem c1_witness :
    (∀ b ∈ [TransBlock.mk 0 0 0 0 [⟨0, 0, 7⟩]],
      b ∈ candidateBlocks [TransBlock.mk 0 0 0 0 [⟨0, 0, 7⟩]] [(0, 0)] ↔
      ((∃ y, (b.aziMin - 1 ≤ y ∧ y ≤ b.aziMax + 1) ∧
         chunkAziMin [(0, 0)] ≤ y ∧ y ≤ chunkAziMax [(0, 0)]) ∧
       (∃ x, (b.rngMin - 1 ≤ x ∧ x ≤ b.rngMax + 1) ∧
         chunkRngMin [(0, 0)] ≤ x ∧ x ≤ chunkRngMax [(0, 0)]))) ∧
    ∃ out, calcIntfLl2raMatrix [TransBlock.mk 0 0 0 0 [⟨0, 0, 7⟩]] [(0, 0)] =
        Except.ok out ∧
      out.length = [((0 : ℚ), (0 : ℚ))].length ∧
      ∀ i, i < [((0 : ℚ), (0 : ℚ))].length →
        ∃ p ∈ gatheredPoints [TransBlock.mk 0 0 0 0 [⟨0, 0, 7⟩]] [(0, 0)],
          out.getD i 0 = p.idx ∧
          ∀ r ∈ gatheredPoints [TransBlock.mk 0 0 0 0 [⟨0, 0, 7⟩]] [(0, 0)],
            dist2 ([((0 : ℚ), (0 : ℚ))].getD i (0, 0)) p ≤
              dist2 ([((0 : ℚ), (0 : ℚ))].getD i (0, 0)) r :=
  c1_ll2ra_nearest_neighbor [TransBlock.mk 0 0 0 0 [⟨0, 0, 7⟩]] [(0, 0)]
    (List.cons_ne_nil _ _)
    (by
      intro b hb
      rw [List.mem_singleton] at hb
      subst hb
      exact ⟨le_refl _, le_refl _⟩)
    (by with_unfolding_all decide)
    (by with_unfolding_all decide)

lemma calc_length (blocks : List TransBlock) (cells : List (ℚ × ℚ))
    (out : List ℕ)
    (h : calcIntfLl2raMatrix blocks cells = Except.ok out) :
    out.length = cells.length := by
  unfold calcIntfLl2raMatrix at h
  by_cases hc : (candidateBlocks blocks cells).isEmpty = true
  · rw [if_pos hc] at h
    simp only [Except.ok.injEq] at h
    subst h
    simp
  · rw [if_neg hc] at h
    cases hg : gatheredPoints blocks cells with
    | nil =>
      rw [hg] at h
      exact absurd h (by simp)
    | cons g gs =>
      rw [hg] at h
      simp only [Except.ok.injEq] at h
      subst h
      simp

lemma exceptMap_partition (blocks : List TransBlock) :
    ∀ (l : List (List (ℚ × ℚ))) (m : List (List ℕ)),
      exceptMap (calcIntfLl2raMatrix blocks) l = Except.ok m →
      chunkPartition m = chunkPartition l := by
  intro l
  induction l with
  | nil =>
    intro m h
    simp only [exceptMap, Except.ok.injEq] at h
    subst h
    rfl
  | cons c cs ih =>
    intro m h
    unfold exceptMap at h
    cases h1 : calcIntfLl2raMatrix blocks c with
    | error e =>
      rw [h1] at h
      exact absurd h (by simp)
    | ok y =>
      cases h2 : exceptMap (calcIntfLl2raMatrix blocks) cs with
      | error e =>
        rw [h1, h2] at h
        exact absurd h (by simp)
      | ok ys =>
        rw [h1, h2] at h
        simp only [Except.ok.injEq] at h
        subst h
        simp only [chunkPartition, List.map_cons]
        rw [calc_length blocks c y h1]
        have := ih ys h2
        simp only [chunkPartition] at this
        rw [this]

/-- C5: every matrix successfully built by `intf_ll2ra_matrix` has exactly
the chunk partition of the interferogram footprint grid, and when the
partitions differ the builder raises the `AssertionError` of lines 202-203
— a fatal failed assertion, not a silent correction. -/
theorem c5_chunk_alignment (blocks : List TransBlock)
    (intfChunks : List (List (ℚ × ℚ))) (chunksize : ℕ) :
    (∀ m, intf_ll2ra_matrix blocks intfChunks chunksize = Except.ok m →
      chunkPartition m = chunkPartition intfChunks) ∧
    (chunkPartition (rechunkList chunksize intfChunks.flatten) ≠
        chunkPartition intfChunks →
      intf_ll2ra_matrix blocks intfChunks chunksize = Except.error
        "AssertionError: Inverse geocoding matrix chunks are not equal to interferogram chunks") := by
  constructor
  · intro m hm
    unfold intf_ll2ra_matrix at hm
    by_cases hc : chunkPartition (rechunkList chunksize intfChunks.flatten) =
        chunkPartition intfChunks
    · rw [if_pos hc] at hm
      rw [← hc]
      exact exceptMap_partition blocks _ m hm
    · rw [if_neg hc] at hm
      exact absurd hm (by simp)
  · intro hne
    unfold intf_ll2ra_matrix
    rw [if_neg hne]

/-- Witness for C5 at a concrete input: the one-block, one-chunk build of
the earlier examples succeeds and its partition equals the footprint
grid's. -/
theorem c5_witness :
    chunkPartition [[7]] = chunkPartition [[((0 : ℚ), (0 : ℚ))]] :=
  (c5_chunk_alignment [TransBlock.mk 0 4 0 4 [⟨0, 0, 7⟩]] [[(0, 0)]] 1).1
    [[7]] (by with_unfolding_all rfl)
